import Mathlib

/-
Verification of the build.h meta-build generator against its specification.

The definitions below are shallow embeddings of the C++ sources:
  - core/stringid.h      (string interning)
  - build.h              (option storage, option collections, project resolution,
                          output-path calculation, post-processor invocation)
  - core/project.h       (selector-filtered project resolution)
  - emitters/direct.h    (depth-assignment walk, staleness pass, depfile parser)

Machine maps and sets are modelled as association lists, pointers into the
project set as indices, and the recursive resolution as a fuel-indexed
function (the C++ recursion has no termination guard of its own).
-/

namespace BuildH

/-! ## Option values (build.h: OptionStorage payloads)

The C++ OptionStorage is type-erased; all option value shapes used by the
claims are either scalars (std::string / fs::path, combine = overwrite) or
vectors (combine = append).  We model the payload as a tagged value over
string elements. -/

inductive OptionValue where
  | scalar (s : String)
  | list (xs : List String)
deriving DecidableEq, Repr

/-- build.h OptionStorage::combineValues: the vector overload appends
`b` to `a`; the general overload overwrites `a` with `b`. -/
def combineValues : OptionValue → OptionValue → OptionValue
  | .list a, .list b => .list (a ++ b)
  | _, b => b

/-! ## Sequence deduplication (build.h: OptionStorage::deduplicateValues)

The C++ routine walks the vector once with remove_if, keeping an element
exactly when inserting a pointer to it into a hash set with dereferencing
equality succeeds.  Two models are developed.  `dedupGo` is the
value-semantics idealization: the set is keyed by the stable values of
the elements, which matches the C++ behaviour exactly when moving an
element leaves the source's value intact (trivially copyable elements,
SSO-short strings).  The slot-level model further below
(deduplicateValuesPtr) keeps the pointers and the remove_if compaction
explicit and captures what happens when a move empties its source. -/

def dedupGo {α : Type _} [DecidableEq α] (seen : List α) : List α → List α
  | [] => []
  | a :: rest => if a ∈ seen then dedupGo seen rest else a :: dedupGo (a :: seen) rest

/-- build.h OptionStorage::deduplicateValues for vector payloads, under
value-preserving moves (the set keyed by element values). -/
def deduplicateValues {α : Type _} [DecidableEq α] (v : List α) : List α :=
  dedupGo [] v

/-- Modelled from the spec: the deduplicate rule, p. "remove later
duplicates of an equal earlier element, preserving first-occurrence
order".  Used only to compare `deduplicateValues` against the spec. -/
def dedupSpec {α : Type _} [DecidableEq α] : List α → List α
  | [] => []
  | a :: rest => a :: dedupSpec (rest.filter (fun x => decide (x ≠ a)))
termination_by l => l.length
decreasing_by
  simp only [List.length_cons]
  exact Nat.lt_succ_of_le (List.length_filter_le _ _)

/-- build.h OptionStorage::deduplicate: vectors are deduplicated,
scalars are left alone. -/
def OptionValue.deduplicate : OptionValue → OptionValue
  | .list xs => .list (deduplicateValues xs)
  | v => v

/-! ## String interning (core/stringid.h: StringId::get)

The process-global unordered_set of strings is modelled as the list of
strings in insertion order; the stable cstring pointer a StringId holds
is modelled as the index of the string in that list.  A StringId is then
`Option Nat`: `none` is the distinguished empty id (the "" literal the
default constructor installs), `some i` points at storage slot `i`.
Pointer equality of cstrings is equality of this representation: two
distinct storage nodes have distinct addresses, and the "" literal is
distinct from every heap node. -/

def findIndex : List String → String → Option Nat
  | [], _ => none
  | t :: rest, s => if t = s then some 0 else (findIndex rest s).map (· + 1)

/-- core/stringid.h StringId::get: the empty string maps to the empty id;
otherwise look the string up in the storage, inserting it if absent, and
return the handle to its node together with the updated storage. -/
def internGet (storage : List String) (s : String) : Option Nat × List String :=
  if s = "" then (none, storage)
  else
    match findIndex storage s with
    | some i => (some i, storage)
    | none => (some storage.length, storage ++ [s])

end BuildH

namespace BuildH

/-! ### Lemmas about findIndex / internGet -/

theorem findIndex_isSome_of_mem {st : List String} {s : String} (h : s ∈ st) :
    (findIndex st s).isSome := by
  induction st with
  | nil => cases h
  | cons t rest ih =>
    by_cases ht : t = s
    · simp [findIndex, ht]
    · rcases List.mem_cons.mp h with h1 | h1
      · exact absurd h1.symm ht
      · simp only [findIndex, if_neg ht]
        have hs := ih h1
        cases hfi : findIndex rest s with
        | none => rw [hfi] at hs; simp at hs
        | some i => simp [hfi]

theorem findIndex_eq_none_of_not_mem {st : List String} {s : String} (h : s ∉ st) :
    findIndex st s = none := by
  induction st with
  | nil => rfl
  | cons t rest ih =>
    have ht : t ≠ s := fun e => h (e ▸ List.mem_cons_self t rest)
    have hs : s ∉ rest := fun hm => h (List.mem_cons_of_mem _ hm)
    simp [findIndex, ht, ih hs]

theorem findIndex_lt_length {st : List String} {s : String} {i : Nat}
    (h : findIndex st s = some i) : i < st.length := by
  induction st generalizing i with
  | nil => simp [findIndex] at h
  | cons t rest ih =>
    by_cases ht : t = s
    · simp [findIndex, ht] at h
      simp [List.length_cons]
      omega
    · simp only [findIndex, if_neg ht] at h
      cases hfi : findIndex rest s with
      | none => rw [hfi] at h; simp at h
      | some j =>
        rw [hfi] at h
        simp at h
        have hj := ih hfi
        simp [List.length_cons]
        omega

theorem findIndex_get {st : List String} {s : String} {i : Nat}
    (h : findIndex st s = some i) : st.get? i = some s := by
  induction st generalizing i with
  | nil => simp [findIndex] at h
  | cons t rest ih =>
    by_cases ht : t = s
    · simp [findIndex, ht] at h
      subst h
      simp [ht]
    · simp only [findIndex, if_neg ht] at h
      cases hfi : findIndex rest s with
      | none => rw [hfi] at h; simp at h
      | some j =>
        rw [hfi] at h
        simp at h
        subst h
        simpa using ih hfi

theorem findIndex_append_self {st : List String} {s : String} (h : s ∉ st) :
    findIndex (st ++ [s]) s = some st.length := by
  induction st with
  | nil => simp [findIndex]
  | cons t rest ih =>
    have ht : t ≠ s := fun e => h (e ▸ List.mem_cons_self t rest)
    have hs : s ∉ rest := fun hm => h (List.mem_cons_of_mem _ hm)
    simp [findIndex, ht, ih hs]

theorem internGet_fst_eq_findIndex (st : List String) (a : String) (ha : a ≠ "") :
    (internGet st a).1 = findIndex (internGet st a).2 a := by
  simp only [internGet, if_neg ha]
  cases hfi : findIndex st a with
  | some i => simp [hfi]
  | none =>
    have hnm : a ∉ st := by
      intro hm
      have hsome := findIndex_isSome_of_mem hm
      rw [hfi] at hsome
      simp at hsome
    simp [findIndex_append_self hnm]

theorem internGet_found {st : List String} {b : String} {j : Nat} (hb : b ≠ "")
    (h : findIndex st b = some j) : internGet st b = (some j, st) := by
  simp only [internGet, if_neg hb, h]

theorem internGet_notfound {st : List String} {b : String} (hb : b ≠ "")
    (h : findIndex st b = none) : internGet st b = (some st.length, st ++ [b]) := by
  simp only [internGet, if_neg hb, h]

theorem internGet_fst_lt (st : List String) (a : String) (ha : a ≠ "") :
    ∃ i, (internGet st a).1 = some i ∧ i < (internGet st a).2.length
      ∧ (internGet st a).2.get? i = some a := by
  cases hfi : findIndex st a with
  | some i =>
    rw [internGet_found ha hfi]
    exact ⟨i, rfl, findIndex_lt_length hfi, findIndex_get hfi⟩
  | none =>
    rw [internGet_notfound ha hfi]
    refine ⟨st.length, rfl, by simp, ?_⟩
    simp [List.get?_eq_getElem?, List.getElem?_concat_length]

end BuildH

namespace BuildH

/-- C9: for all strings a and b, interning a and then b against any prior
storage state yields handles that are equal (as pointer-identity models)
iff a = b; and interning the empty string returns the distinguished empty
id with the storage untouched, i.e. the value of a default-constructed
StringId. -/
theorem intern_identity :
    ∀ (storage : List String) (a b : String),
      ((internGet storage a).1 = (internGet (internGet storage a).2 b).1 ↔ a = b)
      ∧ internGet storage "" = (none, storage) := by
  intro st a b
  refine ⟨?_, by simp [internGet]⟩
  by_cases ha : a = ""
  · subst ha
    have h1 : internGet st "" = (none, st) := by simp [internGet]
    rw [h1]
    by_cases hb : b = ""
    · subst hb; rw [h1]; simp
    · obtain ⟨j, hj, _, _⟩ := internGet_fst_lt st b hb
      rw [hj]
      simp [Ne.symm hb]
  · obtain ⟨i, hi, hilt, higet⟩ := internGet_fst_lt st a ha
    by_cases hb : b = ""
    · subst hb
      have h2 : internGet (internGet st a).2 "" = (none, (internGet st a).2) := by
        simp [internGet]
      rw [hi, h2]
      simp [ha]
    · by_cases hab : a = b
      · subst hab
        have hfx : findIndex (internGet st a).2 a = some i := by
          have h3 := internGet_fst_eq_findIndex st a ha
          rw [hi] at h3
          exact h3.symm
        rw [hi, internGet_found ha hfx]
        simp
      · cases hfj : findIndex (internGet st a).2 b with
        | some j =>
          have hjget := findIndex_get hfj
          rw [hi, internGet_found hb hfj]
          simp only [Option.some.injEq]
          constructor
          · intro hij
            rw [hij] at higet
            rw [higet] at hjget
            exact absurd (Option.some.inj hjget) hab
          · intro h; exact absurd h hab
        | none =>
          rw [hi, internGet_notfound hb hfj]
          simp only [Option.some.injEq]
          constructor
          · intro hij; omega
          · intro h; exact absurd h hab

/-! ### Deduplication equals the spec's first-occurrence filter -/

theorem dedupGo_eq_spec {α : Type _} [DecidableEq α] (seen : List α) (v : List α) :
    dedupGo seen v = dedupSpec (v.filter (fun x => decide (x ∉ seen))) := by
  induction v generalizing seen with
  | nil => simp [dedupGo, dedupSpec]
  | cons a rest ih =>
    by_cases h : a ∈ seen
    · rw [dedupGo, if_pos h, ih seen]
      congr 1
      simp [List.filter_cons, h]
    · rw [dedupGo, if_neg h, ih (a :: seen)]
      have hstep : List.filter (fun x => decide (x ∉ seen)) (a :: rest)
          = a :: List.filter (fun x => decide (x ∉ seen)) rest := by
        simp [List.filter_cons, h]
      have hfeq : List.filter (fun x => decide (x ∉ a :: seen)) rest
          = List.filter (fun x => decide (x ≠ a) && decide (x ∉ seen)) rest := by
        apply List.filter_congr
        intro x _
        by_cases hx : x = a
        · subst hx; simp
        · by_cases hxs : x ∈ seen <;> simp [hx, hxs]
      rw [hstep]
      simp only [dedupSpec]
      rw [List.filter_filter, ← hfeq]

/-- Under value-preserving moves, the deduplication routine computes, for
every element type with decidable value equality and every sequence, the
sequence with every later duplicate of an equal earlier element removed,
preserving first-occurrence order (the spec-side recursion dedupSpec).
This is the intended behaviour; the slot-level model below shows the
routine deviates from it when moves empty their source. -/
theorem deduplicateValues_eq_dedupSpec :
    ∀ {α : Type _} [DecidableEq α] (S : List α), deduplicateValues S = dedupSpec S := by
  intro α _ S
  have h := dedupGo_eq_spec [] S
  simpa [deduplicateValues] using h

end BuildH

namespace BuildH

/-! ## Option collections (build.h: OptionCollection)

The std::map from option name (const char*) to OptionStorage is modelled
as an association list in insertion order; only per-key lookup and
per-key combination are observable. -/

abbrev OptionCollection := List (String × OptionValue)

def lookupOpt : OptionCollection → String → Option OptionValue
  | [], _ => none
  | (k, v) :: rest, key => if k = key then some v else lookupOpt rest key

/-- One step of build.h OptionCollection::combine: a key present locally
is combined in place via the bound combiner; an absent key is cloned in. -/
def combineEntry (acc : OptionCollection) (kv : String × OptionValue) : OptionCollection :=
  match lookupOpt acc kv.1 with
  | some _ => acc.map (fun e => if e.1 = kv.1 then (e.1, combineValues e.2 kv.2) else e)
  | none => acc ++ [kv]

/-- build.h OptionCollection::combine(other): iterate other's entries. -/
def OptionCollection.combine (a b : OptionCollection) : OptionCollection :=
  b.foldl combineEntry a

/-- build.h OptionCollection::deduplicate: deduplicate every key's storage. -/
def OptionCollection.deduplicate (c : OptionCollection) : OptionCollection :=
  c.map (fun e => (e.1, e.2.deduplicate))

/-! ## Projects and resolution (core/project.h)

ProjectType, Transitivity and ConfigSelector as in core/project.h; the
target operating system (core/os.h, not under src) only needs equality.
Links (Project* pointers) are modelled as indices into the list of all
projects, and the unguarded C++ recursion of internalResolve as a
fuel-indexed function that returns none when the fuel runs out. -/

inductive ProjectType where
  | Executable | StaticLib | SharedLib | Command
deriving DecidableEq, Repr

inductive Transitivity where
  | Local | Public | PublicOnly
deriving DecidableEq, Repr

inductive OperatingSystem where
  | windows | macos | linux
deriving DecidableEq, Repr

structure ConfigSelector where
  transitivity : Option Transitivity := none
  name : Option String := none
  projectType : Option ProjectType := none
  targetOS : Option OperatingSystem := none
deriving DecidableEq, Repr

structure Proj where
  options : OptionCollection
  configs : List (ConfigSelector × OptionCollection)
  links : List Nat
deriving Repr

/-- The bucket-selection conditions of Project::internalResolve
(core/project.h lines 167-181): when resolving locally, skip PublicOnly
buckets; when visiting via a link, skip buckets with no transitivity or
Local transitivity; in all cases a set field must match the active
project type, configuration name and target OS. -/
def selectBucket (lcl : Bool) (pt : Option ProjectType) (cfgName : String)
    (os : OperatingSystem) (sel : ConfigSelector) : Bool :=
  (if lcl then decide (sel.transitivity ≠ some Transitivity.PublicOnly)
   else decide (sel.transitivity ≠ none ∧ sel.transitivity ≠ some Transitivity.Local))
  && decide (sel.projectType = none ∨ sel.projectType = pt)
  && decide (sel.name = none ∨ sel.name = some cfgName)
  && decide (sel.targetOS = none ∨ sel.targetOS = some os)

/-- The link loop of Project::internalResolve: combine each link's
resolution (with local = false) into the accumulator, in declaration
order. A dangling link index or an out-of-fuel recursive call yields
none. -/
def resolveLinksAux (env : List Proj) (f : Proj → Option OptionCollection) :
    List Nat → OptionCollection → Option OptionCollection
  | [], acc => some acc
  | l :: ls, acc =>
    match env[l]? with
    | none => none
    | some q =>
      match f q with
      | none => none
      | some r => resolveLinksAux env f ls (acc.combine r)

/-- core/project.h Project::internalResolve, fuel-indexed: select the
matching buckets, resolve all links transitively (local = false), then
combine the base options (only when local) and each selected bucket's
options in selector order. -/
def internalResolveF : Nat → List Proj → Proj → Option ProjectType → String →
    OperatingSystem → Bool → Option OptionCollection
  | 0, _, _, _, _, _, _ => none
  | fuel + 1, env, p, pt, cfgName, os, lcl =>
    let selected := p.configs.filter (fun e => selectBucket lcl pt cfgName os e.1)
    match resolveLinksAux env (fun q => internalResolveF fuel env q pt cfgName os false)
        p.links [] with
    | none => none
    | some acc =>
      let acc1 := if lcl then acc.combine p.options else acc
      some (selected.foldl (fun a e => a.combine e.2) acc1)

/-- core/project.h Project::resolve: the top-level internalResolve call
(local = true) followed by deduplication. -/
def resolveF (fuel : Nat) (env : List Proj) (p : Proj) (pt : Option ProjectType)
    (cfgName : String) (os : OperatingSystem) : Option OptionCollection :=
  (internalResolveF fuel env p pt cfgName os true).map OptionCollection.deduplicate

end BuildH

namespace BuildH

/-! ### C1: cycle handling in Project::resolve -/

def projA : Proj := ⟨[], [], [1]⟩

def projB : Proj := ⟨[], [], [0]⟩

/-- Two projects whose links point at each other. -/
def envCyc : List Proj := [projA, projB]

theorem cyc_aux : ∀ (fuel : Nat) (pt : Option ProjectType) (cfg : String)
    (os : OperatingSystem) (lcl : Bool),
    internalResolveF fuel envCyc projA pt cfg os lcl = none
    ∧ internalResolveF fuel envCyc projB pt cfg os lcl = none := by
  intro fuel
  induction fuel with
  | zero => intro pt cfg os lcl; exact ⟨rfl, rfl⟩
  | succ n ih =>
    intro pt cfg os lcl
    have hA := (ih pt cfg os false).1
    have hB := (ih pt cfg os false).2
    simp only [envCyc, projA, projB] at hA hB
    constructor
    · simp [internalResolveF, envCyc, projA, projB, resolveLinksAux, hB]
    · simp [internalResolveF, envCyc, projA, projB, resolveLinksAux, hA]

/-- C1: on a cyclic links graph (two projects linking each other),
internalResolve never returns, whatever recursion budget it is given:
there is no visiting set, so the recursion is unbounded and no error is
reported.  (The claim that a cycle is detected and reported fails; this
theorem documents the divergence.) -/
theorem resolve_cycle_diverges :
    ∀ (fuel : Nat) (pt : Option ProjectType) (cfg : String)
      (os : OperatingSystem) (lcl : Bool),
      internalResolveF fuel envCyc projA pt cfg os lcl = none :=
  fun fuel pt cfg os lcl => (cyc_aux fuel pt cfg os lcl).1

/-! ### C2: Local / PublicOnly selector buckets never contribute -/

theorem selectBucket_local_link {sel : ConfigSelector} (pt : Option ProjectType)
    (cfg : String) (os : OperatingSystem)
    (h : sel.transitivity = some Transitivity.Local) :
    selectBucket false pt cfg os sel = false := by
  simp [selectBucket, h]

theorem selectBucket_publicOnly_top {sel : ConfigSelector} (pt : Option ProjectType)
    (cfg : String) (os : OperatingSystem)
    (h : sel.transitivity = some Transitivity.PublicOnly) :
    selectBucket true pt cfg os sel = false := by
  simp [selectBucket, h]

theorem internalResolveF_congr_configs (fuel : Nat) (env : List Proj)
    (opts : OptionCollection) (c1 c2 : List (ConfigSelector × OptionCollection))
    (links : List Nat) (pt : Option ProjectType) (cfg : String)
    (os : OperatingSystem) (lcl : Bool)
    (h : c1.filter (fun e => selectBucket lcl pt cfg os e.1)
       = c2.filter (fun e => selectBucket lcl pt cfg os e.1)) :
    internalResolveF fuel env ⟨opts, c1, links⟩ pt cfg os lcl
      = internalResolveF fuel env ⟨opts, c2, links⟩ pt cfg os lcl := by
  cases fuel with
  | zero => rfl
  | succ n =>
    simp only [internalResolveF]
    rw [h]

/-- C2: a selector bucket whose transitivity is Local contributes none of
its options when the project is resolved via a link (local = false): the
resolution result is the same as if the bucket were absent.  Dually, a
bucket whose transitivity is PublicOnly contributes nothing to the
project's own top-level resolve (local = true, including the final
deduplication). -/
theorem selector_transitivity_noncontribution :
    ∀ (fuel : Nat) (env : List Proj) (opts : OptionCollection)
      (cfgs1 cfgs2 : List (ConfigSelector × OptionCollection))
      (sel : ConfigSelector) (bucket : OptionCollection) (links : List Nat)
      (pt : Option ProjectType) (cfgName : String) (os : OperatingSystem),
      (sel.transitivity = some Transitivity.Local →
        internalResolveF fuel env ⟨opts, cfgs1 ++ (sel, bucket) :: cfgs2, links⟩
            pt cfgName os false
          = internalResolveF fuel env ⟨opts, cfgs1 ++ cfgs2, links⟩ pt cfgName os false)
      ∧ (sel.transitivity = some Transitivity.PublicOnly →
        resolveF fuel env ⟨opts, cfgs1 ++ (sel, bucket) :: cfgs2, links⟩ pt cfgName os
          = resolveF fuel env ⟨opts, cfgs1 ++ cfgs2, links⟩ pt cfgName os) := by
  intro fuel env opts cfgs1 cfgs2 sel bucket links pt cfgName os
  constructor
  · intro h
    apply internalResolveF_congr_configs
    rw [List.filter_append, List.filter_append, List.filter_cons]
    simp [selectBucket_local_link pt cfgName os h]
  · intro h
    unfold resolveF
    rw [internalResolveF_congr_configs fuel env opts
      (cfgs1 ++ (sel, bucket) :: cfgs2) (cfgs1 ++ cfgs2) links pt cfgName os true ?_]
    rw [List.filter_append, List.filter_append, List.filter_cons]
    simp [selectBucket_publicOnly_top pt cfgName os h]

def selLocalEx : ConfigSelector := { transitivity := some Transitivity.Local }

def selPubOnlyEx : ConfigSelector := { transitivity := some Transitivity.PublicOnly }

/-- Witness for C2 at concrete inputs: a Local bucket is invisible from a
link, and a PublicOnly bucket is invisible at top level. -/
theorem selector_transitivity_noncontribution_witness :
    (internalResolveF 1 [] ⟨[], [(selLocalEx, [("Defines", OptionValue.list ["PRIVATE"])])], []⟩
        none "cfg" OperatingSystem.linux false
      = internalResolveF 1 [] ⟨[], [], []⟩ none "cfg" OperatingSystem.linux false)
    ∧ (resolveF 1 [] ⟨[], [(selPubOnlyEx, [("Defines", OptionValue.list ["EXPORTED"])])], []⟩
        none "cfg" OperatingSystem.linux
      = resolveF 1 [] ⟨[], [], []⟩ none "cfg" OperatingSystem.linux) :=
  ⟨(selector_transitivity_noncontribution 1 [] [] [] [] selLocalEx
      [("Defines", OptionValue.list ["PRIVATE"])] [] none "cfg" OperatingSystem.linux).1 rfl,
   (selector_transitivity_noncontribution 1 [] [] [] [] selPubOnlyEx
      [("Defines", OptionValue.list ["EXPORTED"])] [] none "cfg" OperatingSystem.linux).2 rfl⟩

end BuildH

namespace BuildH

/-! ## Direct builder: depth-assignment walk (emitters/direct.h lines 98-132)

Commands are indices 0..n-1; `deps` lists, for each command, the indices
of the commands producing its inputs (its upstream dependencies).  The
C++ walk keeps a cursor over the command list plus an explicit
back-inserted stack of (command, depth) pairs; popping from the back of a
std::vector is popping the head of a cons-built list.  The walk is
fuel-indexed and returns none if the fuel runs out, so a `some` result is
a genuinely finished walk. -/

def pushDeps (deps : List (List Nat)) (c : Nat) (d : Nat) (depths : List Nat)
    (stack : List (Nat × Nat)) : List (Nat × Nat) :=
  (deps.getD c []).foldl
    (fun st dep => if depths.getD dep 0 < d + 1 then (dep, d + 1) :: st else st) stack

def walkF (deps : List (List Nat)) :
    Nat → Nat → List (Nat × Nat) → List Nat → Option (List Nat)
  | 0, _, _, _ => none
  | fuel + 1, next, stack, depths =>
    match stack with
    | (c, d) :: rest =>
      let depths1 := depths.set c d
      walkF deps fuel next (pushDeps deps c d depths1 rest) depths1
    | [] =>
      if next < deps.length then
        let d := depths.getD next 0
        let depths1 := depths.set next d
        walkF deps fuel (next + 1) (pushDeps deps next d depths1 []) depths1
      else some depths

/-- The complete depth-assignment pass of DirectBuilder::emit: all depths
start at 0, the cursor starts at the first command with an empty stack. -/
def depthAssign (deps : List (List Nat)) (fuel : Nat) : Option (List Nat) :=
  walkF deps fuel 0 [] (List.replicate deps.length 0)

/-! ## Direct builder: staleness pass (emitters/direct.h lines 134-177)

The commands are visited in the given order (the code sorts them by depth
descending); a command is marked dirty when one of its direct upstream
dependencies is already marked dirty, or when its own timestamp/depfile
checks fail — the latter is abstracted into the `selfDirty` oracle, since
it reads the filesystem. -/

def stalePass (deps : List (List Nat)) (selfDirty : Nat → Bool) :
    List Nat → List Nat → List Nat
  | [], dirty => dirty
  | c :: rest, dirty =>
    let isD := ((deps.getD c []).any (fun dp => dirty.contains dp)) || selfDirty c
    stalePass deps selfDirty rest (if isD then c :: dirty else dirty)

/-- v is a transitive upstream producer of u: v produces one of u's
inputs, directly or through intermediate commands. -/
inductive Upstream (deps : List (List Nat)) : Nat → Nat → Prop
  | direct {u v : Nat} : v ∈ deps.getD u [] → Upstream deps u v
  | step {u w v : Nat} : w ∈ deps.getD u [] → Upstream deps w v → Upstream deps u v

end BuildH

namespace BuildH

/-! ### C3: the depth invariant fails on a concrete acyclic graph -/

/-- Four commands: 1 consumes 0's output; 2 consumes 3's; 3 consumes 0's
and 1's.  Acyclic. -/
def exDeps3 : List (List Nat) := [[], [0], [3], [0, 1]]

/-- C3: after the depth-assignment walk terminates (fuel not exhausted:
the result is some) on the acyclic graph exDeps3, the edge from command 1
to its upstream producer 0 violates depth(0) ≥ depth(1) + 1: both end at
depth 2, because a stale lower-depth stack entry for command 0 overwrites
the depth 3 it had already been raised to. -/
theorem depth_walk_violation :
    depthAssign exDeps3 100 = some [2, 2, 0, 1]
    ∧ 0 ∈ exDeps3.getD 1 []
    ∧ ¬ ([2, 2, 0, 1].getD 0 0 ≥ [2, 2, 0, 1].getD 1 0 + 1) := by
  refine ⟨by decide, by decide, by decide⟩

/-! ### C4: dirty propagation fails on a concrete graph -/

/-- Five commands: 1 consumes 0's output, 2 consumes 3's, 3 consumes 0's
and 4's, 4 consumes 1's.  Acyclic. -/
def exDeps4 : List (List Nat) := [[], [0], [3], [0, 4], [1]]

/-- The depths the walk actually assigns on exDeps4 put command 1
(depth 3) strictly before its upstream producer 0 (depth 2) in every
depth-descending order; exOrder4 is one such order. -/
def exOrder4 : List Nat := [1, 0, 4, 3, 2]

/-- The dirty set the staleness pass computes on exOrder4 when command
0's own timestamp check fails (e.g. its output is missing) and every
other command's own check passes. -/
def exDirty4 : List Nat := stalePass exDeps4 (fun i => i == 0) exOrder4 []

/-- C4: after the staleness pass over exOrder4 — a permutation of all
five commands sorted by the walk's depths in descending order — command 0
is dirty and is a transitive upstream producer of command 1, yet command
1 is not marked dirty: the consumer was processed before its producer, so
the propagation step never saw the producer's dirty bit. -/
theorem dirty_propagation_violation :
    depthAssign exDeps4 200 = some [2, 3, 0, 1, 2]
    ∧ exOrder4.Perm [0, 1, 2, 3, 4]
    ∧ exOrder4.Pairwise (fun a b => [2, 3, 0, 1, 2].getD a 0 ≥ [2, 3, 0, 1, 2].getD b 0)
    ∧ Upstream exDeps4 1 0
    ∧ exDirty4.contains 0 = true
    ∧ exDirty4.contains 1 = false := by
  refine ⟨by decide, by decide, by decide, Upstream.direct (by decide), by decide, by decide⟩

end BuildH

namespace BuildH

/-! ## Depfile parser (emitters/direct.h: DirectBuilder::checkDeps)

The parser state is the remaining character list.  C isspace accepts
space, tab and the newline family. -/

def isWS (c : Char) : Bool :=
  c == ' ' || c == '\t' || c == '\n' || c == '\r' || c == '\x0b' || c == '\x0c'

/-- checkDeps's skipWhitespace: advance while the character is whitespace
or a backslash. -/
def skipWs : List Char → List Char
  | [] => []
  | c :: rest => if isWS c || c == '\\' then skipWs rest else c :: rest

/-- checkDeps's readPath: accumulate one token.  A backslash sets the
escape flag (emitting a literal backslash if one was already pending); an
escaped whitespace character is emitted into the token; an unescaped
whitespace character ends the token without being consumed; an escaped
non-space character is preceded by a literal backslash. -/
def readPath : List Char → Bool → String → String × List Char
  | [], _, acc => (acc, [])
  | c :: rest, escaped, acc =>
    if c == '\\' then
      readPath rest true (if escaped then acc.push '\\' else acc)
    else if isWS c then
      if escaped then readPath rest false (acc.push c)
      else (acc, c :: rest)
    else if escaped then
      readPath rest false ((acc.push '\\').push c)
    else
      readPath rest false (acc.push c)

/-- The scanning loop of checkDeps: tokens before (and including) the one
ending in ':' are outputs and are skipped; every later token is collected
as an input path.  Fuel bounds the loop; each productive iteration
consumes at least one character. -/
def scanInputs : Nat → List Char → Bool → List String → List String
  | 0, _, _, acc => acc
  | fuel + 1, data, scanningOutputs, acc =>
    match data with
    | [] => acc
    | _ :: _ =>
      let rest := skipWs data
      let pr := readPath rest false ""
      if pr.1.isEmpty then scanInputs fuel pr.2 scanningOutputs acc
      else if pr.1.back == ':' then scanInputs fuel pr.2 false acc
      else if scanningOutputs then scanInputs fuel pr.2 scanningOutputs acc
      else scanInputs fuel pr.2 scanningOutputs (acc ++ [pr.1])

/-- DirectBuilder::checkDeps's parse of a depfile's contents into the
list of input paths.  The C++ loop unconditionally advances past the
first character before scanning. -/
def parseDepfileInputs (data : String) : List String :=
  scanInputs (data.length + 1) (data.toList.drop 1) true []

/-- DirectBuilder::checkDeps, with the filesystem abstracted: no depfile
declared means not dirty; an empty (or unreadable, since file::read
yields an empty string then) depfile means dirty; otherwise dirty iff
some parsed input is newer than the output time or cannot be stat'ed
(the `inputBad` oracle). -/
def checkDeps (pathEmpty : Bool) (data : String) (inputBad : String → Bool) : Bool :=
  if pathEmpty then false
  else if data = "" then true
  else (parseDepfileInputs data).any inputBad

end BuildH

namespace BuildH

/-- C6: the depfile check parses a Make-style dependency file by skipping
tokens up to the one ending in ':' and collecting every later
whitespace-separated token, where a backslash before a space emits a
space into the path and a backslash before a non-space emits a literal
backslash: the depfile out: a b\ c d\\e yields exactly the inputs a, b c
and d\\e; and a depfile that is declared but empty (file::read of an
unreadable file yields the empty string) is treated as dirty. -/
theorem depfile_parse_example :
    parseDepfileInputs "out: a b\\ c d\\\\e" = ["a", "b c", "d\\\\e"]
    ∧ ∀ inputBad : String → Bool, checkDeps false "" inputBad = true :=
  ⟨by decide, fun _ => rfl⟩

/-! ## Post-processor invocation (emitters/direct.h lines 330-338)

A post-processor receives the project and the resolved config and may
mutate the resolved config, including appending further post-processors
to resolved[PostProcess].  Post-processors are modelled syntactically:
hook j either appends hook k to the PostProcess vector or mutates the
rest of the resolved state (of abstract type σ).  The resolved state is
the pair (PostProcess vector of hook ids, rest). -/

inductive HookAction (σ : Type _) where
  | appendPost (j : Nat)
  | modify (f : σ → σ)

def runHook {σ : Type _} (table : Nat → HookAction σ) (st : List Nat × σ) (j : Nat) :
    List Nat × σ :=
  match table j with
  | .appendPost k => (st.1 ++ [k], st.2)
  | .modify f => (st.1, f st.2)

/-- DirectBuilder::build's invocation loop: auto postProcessors =
resolved[PostProcess] binds a copy of the vector, and the loop condition
re-reads the size of that copy, which never changes; so the run invokes
exactly the hooks present when the copy was taken, in order, while their
effects land in the live resolved state. -/
def runPostProcessors {σ : Type _} (table : Nat → HookAction σ) (st : List Nat × σ) :
    List Nat × σ :=
  st.1.foldl (runHook table) st

/-- Modelled from the spec: the invocation loop the spec requires, which
re-reads the length of the live resolved[PostProcess] vector at each
step, so that hooks appended during the run are themselves invoked.
Fuel-bounded since hooks could append forever. -/
def runPostProcessorsLive {σ : Type _} (table : Nat → HookAction σ) :
    Nat → List Nat × σ → Nat → List Nat × σ
  | 0, st, _ => st
  | fuel + 1, st, i =>
    if h : i < st.1.length then
      runPostProcessorsLive table fuel (runHook table st (st.1.get ⟨i, h⟩)) (i + 1)
    else st

/-- Hook 0 appends hook 1 to resolved[PostProcess]; hook 1 (and any
other) sets the flag in the remaining resolved state. -/
def exTable : Nat → HookAction Bool
  | 0 => .appendPost 1
  | _ => .modify (fun _ => true)

/-- C7: starting from resolved[PostProcess] = [hook 0] (and flag false),
the code's loop over the copied vector appends hook 1 but never invokes
it (the flag stays false), while the spec's live-length iteration does
invoke it (the flag becomes true): the code caches the snapshot and so
violates the claim. -/
theorem postprocess_copy_skips_appended :
    runPostProcessors exTable ([0], false) = ([0, 1], false)
    ∧ runPostProcessorsLive exTable 10 ([0], false) 0 = ([0, 1], true) :=
  ⟨rfl, rfl⟩

/-! ## Output path calculation (core/project.h / build.h: Project::calcOutputPath) -/

/-- Reading a scalar option out of a resolved collection; an absent key
reads as the default-constructed empty string. -/
def getScalar (r : OptionCollection) (k : String) : String :=
  match lookupOpt r k with
  | some (.scalar s) => s
  | _ => ""

/-- fs::path operator/ for the relative paths involved here. -/
def pathDiv (a b : String) : String :=
  if a = "" then b else a ++ "/" ++ b

/-- Project::calcOutputPath, transcribed from the source: if OutputPath
is set, return it; otherwise the stem is OutputStem or, when that is
empty, the project name; the result is
OutputDir / (OutputPrefix + stem + OutputSuffix + OutputStem) — note
that the last component really is OutputStem again in both copies of the
source, not OutputExtension. -/
def calcOutputPath (name : String) (r : OptionCollection) : String :=
  let path := getScalar r "OutputPath"
  if path ≠ "" then path
  else
    let stem0 := getScalar r "OutputStem"
    let stem := if stem0 = "" then name else stem0
    pathDiv (getScalar r "OutputDir")
      (getScalar r "OutputPrefix" ++ stem ++ getScalar r "OutputSuffix"
        ++ getScalar r "OutputStem")

def exOutCfg : OptionCollection :=
  [("OutputDir", OptionValue.scalar "bin"), ("OutputStem", OptionValue.scalar "foo"),
   ("OutputExtension", OptionValue.scalar ".exe")]

/-- C8: on a resolved config with OutputDir bin, OutputStem foo and
OutputExtension .exe, calcOutputPath yields bin/foofoo — the stem is
appended twice and the extension ignored — not the bin/foo.exe that the
claim's composition requires; moreover the value stored under
OutputExtension cannot influence the result at all. -/
theorem calcOutputPath_duplicates_stem :
    calcOutputPath "hello" exOutCfg = "bin/foofoo"
    ∧ calcOutputPath "hello" exOutCfg ≠ "bin/foo.exe"
    ∧ ∀ v : OptionValue,
        calcOutputPath "hello" (("OutputExtension", v) :: exOutCfg)
          = calcOutputPath "hello" exOutCfg := by
  refine ⟨by decide, by decide, ?_⟩
  intro v
  simp [calcOutputPath, getScalar, lookupOpt, pathDiv, exOutCfg]

/-! ## Reading an option inserts its default (build.h:
OptionCollection::operator[] with OptionStorage::get<T>) -/

inductive OptionShape where
  | scalar | list

/-- The default-constructed payload of each option value shape. -/
def OptionShape.defaultValue : OptionShape → OptionValue
  | .scalar => .scalar ""
  | .list => .list []

/-- build.h OptionCollection::operator[] followed by
OptionStorage::get<T>: std::map::operator[] default-constructs the
storage for an absent key, and get<T> allocates a default-constructed T
on first access; the read hands back that stored value. -/
def readOption (c : OptionCollection) (k : String) (shape : OptionShape) :
    OptionValue × OptionCollection :=
  match lookupOpt c k with
  | some v => (v, c)
  | none => (shape.defaultValue, c ++ [(k, shape.defaultValue)])

theorem lookupOpt_append_self {c : OptionCollection} {k : String} (v : OptionValue)
    (h : lookupOpt c k = none) : lookupOpt (c ++ [(k, v)]) k = some v := by
  induction c with
  | nil => simp [lookupOpt]
  | cons e rest ih =>
    by_cases he : e.1 = k
    · simp [lookupOpt, he] at h
    · simp only [lookupOpt, he, if_neg] at h ⊢
      simpa [lookupOpt, he] using ih h

/-- C10: evaluating c[o] for a key absent from the collection returns the
default-constructed value of o's shape and inserts the key bound to that
default, so the read mutates the collection; every subsequent read of
the key sees the inserted default and leaves the collection unchanged. -/
theorem readOption_inserts_default :
    ∀ (c : OptionCollection) (k : String) (shape : OptionShape),
      lookupOpt c k = none →
      readOption c k shape = (shape.defaultValue, c ++ [(k, shape.defaultValue)])
      ∧ lookupOpt (c ++ [(k, shape.defaultValue)]) k = some shape.defaultValue
      ∧ readOption (c ++ [(k, shape.defaultValue)]) k shape
          = (shape.defaultValue, c ++ [(k, shape.defaultValue)]) := by
  intro c k shape h
  have h2 := lookupOpt_append_self shape.defaultValue h
  refine ⟨?_, h2, ?_⟩
  · simp [readOption, h]
  · simp [readOption, h2]

/-- Witness for C10: reading the unset Defines key of an empty collection
inserts and returns the empty list. -/
theorem readOption_inserts_default_witness :
    readOption [] "Defines" OptionShape.list
        = (OptionShape.defaultValue OptionShape.list,
           [("Defines", OptionShape.defaultValue OptionShape.list)])
    ∧ lookupOpt [("Defines", OptionShape.defaultValue OptionShape.list)] "Defines"
        = some (OptionShape.defaultValue OptionShape.list)
    ∧ readOption [("Defines", OptionShape.defaultValue OptionShape.list)] "Defines"
          OptionShape.list
        = (OptionShape.defaultValue OptionShape.list,
           [("Defines", OptionShape.defaultValue OptionShape.list)]) :=
  readOption_inserts_default [] "Defines" OptionShape.list rfl

end BuildH

namespace BuildH

/-! ## Slot-level model of OptionStorage::deduplicateValues
(build.h lines 390-419)

The C++ dups set stores const U* pointers into the very vector that
remove_if is compacting.  remove_if (both mainstream libraries) first
scans with the predicate until the first removal; from then on every kept
element is move-assigned leftward onto the write head, leaving its source
slot moved-from.  A set entry pointing at such a slot now dereferences
the moved-from husk instead of the inserted value.

The model keeps the vector as a list of slots, where some x is a live
value and none is a moved-from husk; none models a husk whose value
differs from every element in play, which is exactly the situation for
std::string elements longer than the small-string buffer (moving them
empties the source on the mainstream libraries).  A stored pointer is the
index of its slot; a duplicate lookup compares the probe value against
the current dereference of every stored pointer.  The C++ unordered_set
additionally prunes candidates by the bucket of their insert-time hash,
which can only drop comparisons; on the input used in the theorem below
no stored pointer whose slot has changed matches any probe, so the model
and the C++ set find exactly the same duplicates there.

The predicate always reads the read slot's original value: writes only
ever target slots at or before the write head, which stays strictly
behind the read head once a removal has happened and coincides with it
(no move performed, mirroring the find_if prefix phase) before that. -/

structure RIState (α : Type _) where
  slots : List (Option α)
  dups : List Nat
  w : Nat

/-- The duplicate test of the pred lambda: does some stored pointer
currently dereference to a value equal to x? -/
def dupsSeen {α : Type _} [DecidableEq α] (slots : List (Option α)) (dups : List Nat)
    (x : α) : Bool :=
  dups.any (fun i => decide (slots.getD i none = some x))

/-- One remove_if step at read position r: a detected duplicate is
skipped (its slot untouched, the write head not advanced); otherwise the
pointer to slot r is inserted and, when the write head trails the read
head, the element is move-assigned onto the write slot, leaving slot r a
husk. -/
def removeIfStep {α : Type _} [DecidableEq α] (st : RIState α) (r : Nat) : RIState α :=
  match st.slots.getD r none with
  | none => st
  | some x =>
    if dupsSeen st.slots st.dups x then st
    else if st.w = r then
      ⟨st.slots, st.dups ++ [r], st.w + 1⟩
    else
      ⟨(st.slots.set st.w (some x)).set r none, st.dups ++ [r], st.w + 1⟩

/-- The full remove_if pass over all read positions in order. -/
def removeIfRun {α : Type _} [DecidableEq α] (v : List α) : RIState α :=
  (List.range v.length).foldl removeIfStep ⟨v.map some, [], 0⟩

/-- build.h OptionStorage::deduplicateValues at slot level:
v.erase(remove_if(...), v.end()) keeps the first w slots. -/
def deduplicateValuesPtr {α : Type _} [DecidableEq α] (v : List α) : List α :=
  ((removeIfRun v).slots.take (removeIfRun v).w).filterMap id

/-- A string longer than any small-string buffer: moving it empties the
source on the mainstream C++ libraries. -/
def longA : String := "aaaaaaaaaaaaaaaaaaaaaaaaaaaaaaaa"

def longB : String := "bbbbbbbbbbbbbbbbbbbbbbbbbbbbbbbb"

def exDedupList : List String := [longA, longA, longB, longB]

/-- C5: on the vector [a, a, b, b] of long strings the deduplication
routine keeps the later duplicate of b: removing the second a makes the
write head trail, so keeping the first b moves it leftward and the set's
pointer for it dangles onto the moved-from husk; the second b then
matches nothing and survives.  The routine yields [a, b, b] where the
claimed first-occurrence dedup (dedupSpec, also what the value-semantics
idealization deduplicateValues computes) yields [a, b]. -/
theorem dedup_pointer_set_misses_duplicate :
    deduplicateValuesPtr exDedupList = [longA, longB, longB]
    ∧ dedupSpec exDedupList = [longA, longB]
    ∧ deduplicateValues exDedupList = [longA, longB]
    ∧ deduplicateValuesPtr exDedupList ≠ dedupSpec exDedupList := by
  have hspec : dedupSpec exDedupList = [longA, longB] := by
    rw [← deduplicateValues_eq_dedupSpec]
    decide
  refine ⟨by decide, hspec, by decide, ?_⟩
  rw [hspec]
  decide

end BuildH
